import Mathlib

/-!
Verification of the Waku-miniChat cryptographic messaging core.

This file shallowly embeds the code of `src/sdk/crypto.ts` and
`src/sdk/chatClient.ts` in Lean 4 and proves the testable properties of the
specification against that embedding.

Modelling conventions, used throughout:
* byte strings (base64 wire values, identifiers, keys) are modelled as Lean
  `String`s;
* the external `@noble` primitives (`ed25519.sign`/`verify` and
  `xchacha20poly1305`) are modelled as ideal schemes: a signature is a record
  of the signing key's public half and the exact canonical serialization it
  signs, and verification is equality checking; an AEAD ciphertext records the
  key, nonce and plaintext it was produced from, and decryption succeeds
  exactly when key and nonce match.  These stand for the documented contracts
  of the external library; everything the repository itself computes
  (canonical serialization, envelope construction, store transitions,
  authorization) is embedded operation by operation from the source;
* JavaScript `Map`s are modelled as association lists with `Map.get`/`Map.set`
  semantics (update in place, insert at the end);
* event emission and transport publishing are modelled as append-only logs on
  the client state, recording exactly the calls the source makes.
-/

/-- Byte strings (identifiers, keys, base64 blobs) are modelled as strings. -/
abbrev Bytes := String

/-! ## Decimal rendering of natural numbers

`JSON.stringify` renders the (integral, non-negative) numbers appearing in
envelopes — `v` and `timestamp` — in plain decimal.  We model that with an
executable digit expansion (fuel-based so the kernel can evaluate it). -/

/-- Least-significant-first decimal digits of `n`, with explicit fuel. -/
def natDigitsAux : Nat → Nat → List Nat
  | 0, _ => []
  | _ + 1, 0 => []
  | fuel + 1, n + 1 => ((n + 1) % 10) :: natDigitsAux fuel ((n + 1) / 10)

/-- Least-significant-first decimal digits of `n` (empty for `0`). -/
def natDigits (n : Nat) : List Nat := natDigitsAux n n

/-- Rebuild a number from least-significant-first decimal digits. -/
def unDigits : List Nat → Nat
  | [] => 0
  | d :: ds => d + 10 * unDigits ds

theorem unDigits_natDigitsAux : ∀ (fuel n : Nat), n ≤ fuel → unDigits (natDigitsAux fuel n) = n := by
  intro fuel
  induction fuel with
  | zero => intro n h; interval_cases n; rfl
  | succ f ih =>
    intro n h
    match n with
    | 0 => rfl
    | m + 1 =>
      have hdiv : (m + 1) / 10 ≤ f := by
        have h1 : (m + 1) / 10 < m + 1 := Nat.div_lt_self (Nat.succ_pos m) (by omega)
        omega
      simp only [natDigitsAux, unDigits, ih _ hdiv]
      omega

theorem unDigits_natDigits (n : Nat) : unDigits (natDigits n) = n :=
  unDigits_natDigitsAux n n (Nat.le_refl n)

theorem natDigits_inj {m n : Nat} (h : natDigits m = natDigits n) : m = n := by
  have hm := unDigits_natDigits m
  have hn := unDigits_natDigits n
  rw [h] at hm
  omega

theorem natDigitsAux_lt_ten : ∀ (fuel n : Nat), ∀ d ∈ natDigitsAux fuel n, d < 10 := by
  intro fuel
  induction fuel with
  | zero => intro n d hd; simp [natDigitsAux] at hd
  | succ f ih =>
    intro n d hd
    match n with
    | 0 => simp [natDigitsAux] at hd
    | m + 1 =>
      simp only [natDigitsAux, List.mem_cons] at hd
      rcases hd with h | h
      · omega
      · exact ih _ _ h

theorem natDigits_lt_ten (n : Nat) : ∀ d ∈ natDigits n, d < 10 :=
  natDigitsAux_lt_ten n n

/-- The character for a decimal digit. -/
def digitChar (d : Nat) : Char := Char.ofNat (48 + d)

/-- Decimal rendering of a natural number, as produced by `JSON.stringify`
for the integral numbers of this protocol. -/
def natRepr (n : Nat) : String :=
  if n = 0 then "0" else ⟨((natDigits n).map digitChar).reverse⟩

theorem digitChar_inj {d e : Nat} (hd : d < 10) (he : e < 10) (h : digitChar d = digitChar e) :
    d = e := by
  have hval : (digitChar d).toNat = (digitChar e).toNat := by rw [h]
  have h1 : ∀ a < 10, (digitChar a).toNat = 48 + a := by decide
  rw [h1 d hd, h1 e he] at hval
  omega

theorem map_digitChar_inj :
    ∀ (l1 l2 : List Nat), (∀ d ∈ l1, d < 10) → (∀ d ∈ l2, d < 10) →
      l1.map digitChar = l2.map digitChar → l1 = l2 := by
  intro l1
  induction l1 with
  | nil => intro l2 _ _ h; cases l2 <;> simp_all
  | cons a as ih =>
    intro l2 h1 h2 h
    cases l2 with
    | nil => simp at h
    | cons b bs =>
      simp only [List.map_cons, List.cons.injEq] at h
      have ha : a = b :=
        digitChar_inj (h1 a (List.mem_cons_self a as)) (h2 b (List.mem_cons_self b bs)) h.1
      have hrest := ih bs (fun d hd => h1 d (List.mem_cons_of_mem a hd))
        (fun d hd => h2 d (List.mem_cons_of_mem b hd)) h.2
      rw [ha, hrest]

theorem natRepr_inj {m n : Nat} (h : natRepr m = natRepr n) : m = n := by
  unfold natRepr at h
  by_cases hm : m = 0 <;> by_cases hn : n = 0
  · omega
  · rw [if_pos hm, if_neg hn] at h
    exfalso
    have hdata : ("0" : String).data = ((natDigits n).map digitChar).reverse := by
      rw [h]
    have hnd : natDigits n = [0] := by
      have h1 : ((natDigits n).map digitChar).reverse = ['0'] := hdata.symm
      have h2 : (natDigits n).map digitChar = ['0'] := by
        have := congrArg List.reverse h1
        simpa using this
      have h3 : (natDigits n).map digitChar = [0].map digitChar := by
        simpa [digitChar] using h2
      exact map_digitChar_inj _ _ (natDigits_lt_ten n) (by simp) h3
    have hun := unDigits_natDigits n
    rw [hnd] at hun
    simp [unDigits] at hun
    exact hn hun.symm
  · rw [if_neg hm, if_pos hn] at h
    exfalso
    have hdata : ((natDigits m).map digitChar).reverse = ("0" : String).data := by
      rw [← h]
    have hnd : natDigits m = [0] := by
      have h2 : (natDigits m).map digitChar = ['0'] := by
        have := congrArg List.reverse hdata
        simpa using this
      have h3 : (natDigits m).map digitChar = [0].map digitChar := by
        simpa [digitChar] using h2
      exact map_digitChar_inj _ _ (natDigits_lt_ten m) (by simp) h3
    have hun := unDigits_natDigits m
    rw [hnd] at hun
    simp [unDigits] at hun
    exact hm hun.symm
  · rw [if_neg hm, if_neg hn] at h
    have hdata : ((natDigits m).map digitChar).reverse = ((natDigits n).map digitChar).reverse :=
      congrArg String.data h
    have h2 := congrArg List.reverse hdata
    simp only [List.reverse_reverse] at h2
    exact natDigits_inj (map_digitChar_inj _ _ (natDigits_lt_ten m) (natDigits_lt_ten n) h2)

/-- Every character of a rendered number is a decimal digit. -/
theorem natRepr_chars {n : Nat} : ∀ c ∈ (natRepr n).data, 48 ≤ c.toNat ∧ c.toNat ≤ 57 := by
  intro c hc
  unfold natRepr at hc
  by_cases hn : n = 0
  · rw [if_pos hn] at hc
    simp only [String.data] at hc
    have : c = '0' := by simpa using hc
    subst this
    decide
  · rw [if_neg hn] at hc
    simp only [List.mem_reverse, List.mem_map] at hc
    obtain ⟨d, hd, hdc⟩ := hc
    have hlt := natDigits_lt_ten n d hd
    subst hdc
    have : ∀ a < 10, 48 ≤ (digitChar a).toNat ∧ (digitChar a).toNat ≤ 57 := by decide
    exact this d hlt

/-! ## JSON string escaping

`JSON.stringify` of a string value escapes the quote, the backslash, the named
control characters, and all other code points below `0x20` (as `\u00XY`); all
other characters pass through unchanged.  This is the escaping applied to the
string *values* of an envelope by `stableStringify` (object keys, by contrast,
are interpolated raw by the source). -/

/-- The character for a hexadecimal digit (lowercase, as emitted by JSON). -/
def hexDigitChar (d : Nat) : Char :=
  if d < 10 then Char.ofNat (48 + d) else Char.ofNat (87 + d)

/-- Numeric value of a hexadecimal digit character. -/
def hexVal (c : Char) : Nat :=
  if c.toNat ≥ 97 then c.toNat - 87 else c.toNat - 48

/-- JSON escaping of one character, as a character sequence. -/
def escChar (c : Char) : List Char :=
  if c = '"' then ['\\', '"']
  else if c = '\\' then ['\\', '\\']
  else if c.toNat = 8 then ['\\', 'b']
  else if c.toNat = 12 then ['\\', 'f']
  else if c.toNat = 10 then ['\\', 'n']
  else if c.toNat = 13 then ['\\', 'r']
  else if c.toNat = 9 then ['\\', 't']
  else if c.toNat < 32 then
    ['\\', 'u', '0', '0', hexDigitChar (c.toNat / 16), hexDigitChar (c.toNat % 16)]
  else [c]

/-- JSON escaping of a character sequence. -/
def escList : List Char → List Char
  | [] => []
  | c :: rest => escChar c ++ escList rest

/-- The body (without the surrounding quotes) of `JSON.stringify` of a string. -/
def escString (s : String) : String := ⟨escList s.data⟩

/-- `JSON.stringify` of a string value: quoted and escaped. -/
def quoteString (s : String) : String := "\"" ++ escString s ++ "\""

/-- Decode one two-character escape (the character after the backslash). -/
def unescChar2 (c : Char) : Char :=
  if c = 'b' then Char.ofNat 8
  else if c = 'f' then Char.ofNat 12
  else if c = 'n' then Char.ofNat 10
  else if c = 'r' then Char.ofNat 13
  else if c = 't' then Char.ofNat 9
  else c

/-- Decoder for the image of `escList` (left inverse). -/
def unescList : List Char → List Char
  | [] => []
  | '\\' :: 'u' :: _ :: _ :: h1 :: h2 :: rest =>
      Char.ofNat (hexVal h1 * 16 + hexVal h2) :: unescList rest
  | '\\' :: c :: rest => unescChar2 c :: unescList rest
  | c :: rest => c :: unescList rest

theorem hexVal_hexDigitChar : ∀ d < 16, hexVal (hexDigitChar d) = d := by decide

theorem unescList_cons_of_ne (c : Char) (l : List Char) (h : c ≠ '\\') :
    unescList (c :: l) = c :: unescList l := by
  rw [unescList.eq_def]
  split
  · simp_all
  · simp_all
  · simp_all
  · rename_i heq
    rw [List.cons.injEq] at heq
    rw [heq.1, heq.2]

theorem unescList_escList : ∀ l : List Char, unescList (escList l) = l := by
  intro l
  induction l with
  | nil => rfl
  | cons c rest ih =>
    show unescList (escChar c ++ escList rest) = c :: rest
    unfold escChar
    by_cases h1 : c = '"'
    · subst h1; simp only [if_pos rfl]; simp [unescList, unescChar2, ih]
    rw [if_neg h1]
    by_cases h2 : c = '\\'
    · subst h2; simp only [if_pos rfl]; simp [unescList, unescChar2, ih]
    rw [if_neg h2]
    by_cases h3 : c.toNat = 8
    · rw [if_pos h3]
      have hc : c = Char.ofNat 8 := by rw [← h3, Char.ofNat_toNat]
      simp [unescList, unescChar2, ih, hc]
    rw [if_neg h3]
    by_cases h4 : c.toNat = 12
    · rw [if_pos h4]
      have hc : c = Char.ofNat 12 := by rw [← h4, Char.ofNat_toNat]
      simp [unescList, unescChar2, ih, hc]
    rw [if_neg h4]
    by_cases h5 : c.toNat = 10
    · rw [if_pos h5]
      have hc : c = Char.ofNat 10 := by rw [← h5, Char.ofNat_toNat]
      simp [unescList, unescChar2, ih, hc]
    rw [if_neg h5]
    by_cases h6 : c.toNat = 13
    · rw [if_pos h6]
      have hc : c = Char.ofNat 13 := by rw [← h6, Char.ofNat_toNat]
      simp [unescList, unescChar2, ih, hc]
    rw [if_neg h6]
    by_cases h7 : c.toNat = 9
    · rw [if_pos h7]
      have hc : c = Char.ofNat 9 := by rw [← h7, Char.ofNat_toNat]
      simp [unescList, unescChar2, ih, hc]
    rw [if_neg h7]
    by_cases h8 : c.toNat < 32
    · rw [if_pos h8]
      show unescList ('\\' :: 'u' :: '0' :: '0' :: hexDigitChar (c.toNat / 16)
        :: hexDigitChar (c.toNat % 16) :: escList rest) = c :: rest
      rw [unescList, ih]
      have hlo : c.toNat % 16 < 16 := Nat.mod_lt _ (by omega)
      have hhi : c.toNat / 16 < 16 := by omega
      rw [hexVal_hexDigitChar _ hhi, hexVal_hexDigitChar _ hlo]
      have : c.toNat / 16 * 16 + c.toNat % 16 = c.toNat := by omega
      rw [this, Char.ofNat_toNat]
    rw [if_neg h8]
    show unescList (c :: escList rest) = c :: rest
    rw [unescList_cons_of_ne c _ h2, ih]

theorem escList_inj {l1 l2 : List Char} (h : escList l1 = escList l2) : l1 = l2 := by
  have h1 := unescList_escList l1
  have h2 := unescList_escList l2
  rw [h] at h1
  rw [h2] at h1
  exact h1.symm

theorem escList_append (a b : List Char) : escList (a ++ b) = escList a ++ escList b := by
  induction a with
  | nil => rfl
  | cons c rest ih => simp [escList, ih]

/-- Scanner for a JSON-escaped segment: consumes characters up to the first
quote that is not part of an escape, returning the consumed segment and the
remainder after the quote. -/
def scanStr : List Char → Option (List Char × List Char)
  | [] => none
  | '"' :: rest => some ([], rest)
  | '\\' :: c :: rest => (scanStr rest).map (fun p => ('\\' :: c :: p.1, p.2))
  | c :: rest => (scanStr rest).map (fun p => (c :: p.1, p.2))

theorem scanStr_cons_of_ne (c : Char) (l : List Char) (hq : c ≠ '"') (hb : c ≠ '\\') :
    scanStr (c :: l) = (scanStr l).map (fun p => (c :: p.1, p.2)) := by
  rw [scanStr.eq_def]
  split
  · simp_all
  · simp_all
  · simp_all
  · rename_i heq
    rw [List.cons.injEq] at heq
    rw [heq.1, heq.2]

/-- Scanning an escaped segment followed by a closing quote recovers exactly
the segment and the remainder. -/
theorem scanStr_escList (s r : List Char) :
    scanStr (escList s ++ '"' :: r) = some (escList s, r) := by
  induction s with
  | nil => rfl
  | cons c rest ih =>
    show scanStr ((escChar c ++ escList rest) ++ '"' :: r) = some (escChar c ++ escList rest, r)
    rw [List.append_assoc]
    unfold escChar
    by_cases h1 : c = '"'
    · subst h1; simp only [if_pos rfl]
      show scanStr ('\\' :: '"' :: (escList rest ++ '"' :: r)) = _
      rw [scanStr, ih]
      rfl
    rw [if_neg h1]
    by_cases h2 : c = '\\'
    · subst h2; simp only [if_pos rfl]
      show scanStr ('\\' :: '\\' :: (escList rest ++ '"' :: r)) = _
      rw [scanStr, ih]
      rfl
    rw [if_neg h2]
    by_cases h3 : c.toNat = 8
    · rw [if_pos h3]
      show scanStr ('\\' :: 'b' :: (escList rest ++ '"' :: r)) = _
      rw [scanStr, ih]
      rfl
    rw [if_neg h3]
    by_cases h4 : c.toNat = 12
    · rw [if_pos h4]
      show scanStr ('\\' :: 'f' :: (escList rest ++ '"' :: r)) = _
      rw [scanStr, ih]
      rfl
    rw [if_neg h4]
    by_cases h5 : c.toNat = 10
    · rw [if_pos h5]
      show scanStr ('\\' :: 'n' :: (escList rest ++ '"' :: r)) = _
      rw [scanStr, ih]
      rfl
    rw [if_neg h5]
    by_cases h6 : c.toNat = 13
    · rw [if_pos h6]
      show scanStr ('\\' :: 'r' :: (escList rest ++ '"' :: r)) = _
      rw [scanStr, ih]
      rfl
    rw [if_neg h6]
    by_cases h7 : c.toNat = 9
    · rw [if_pos h7]
      show scanStr ('\\' :: 't' :: (escList rest ++ '"' :: r)) = _
      rw [scanStr, ih]
      rfl
    rw [if_neg h7]
    by_cases h8 : c.toNat < 32
    · rw [if_pos h8]
      show scanStr ('\\' :: 'u' :: '0' :: '0' :: hexDigitChar (c.toNat / 16)
        :: hexDigitChar (c.toNat % 16) :: (escList rest ++ '"' :: r)) = _
      rw [scanStr]
      have hz : ('0' : Char) ≠ '"' := by decide
      have hzb : ('0' : Char) ≠ '\\' := by decide
      rw [scanStr_cons_of_ne _ _ hz hzb, scanStr_cons_of_ne _ _ hz hzb]
      have hhiq : hexDigitChar (c.toNat / 16) ≠ '"' := by
        have : ∀ d < 16, hexDigitChar d ≠ '"' := by decide
        exact this _ (by omega)
      have hhib : hexDigitChar (c.toNat / 16) ≠ '\\' := by
        have : ∀ d < 16, hexDigitChar d ≠ '\\' := by decide
        exact this _ (by omega)
      have hloq : hexDigitChar (c.toNat % 16) ≠ '"' := by
        have : ∀ d < 16, hexDigitChar d ≠ '"' := by decide
        exact this _ (Nat.mod_lt _ (by omega))
      have hlob : hexDigitChar (c.toNat % 16) ≠ '\\' := by
        have : ∀ d < 16, hexDigitChar d ≠ '\\' := by decide
        exact this _ (Nat.mod_lt _ (by omega))
      rw [scanStr_cons_of_ne _ _ hhiq hhib, scanStr_cons_of_ne _ _ hloq hlob, ih]
      rfl
    rw [if_neg h8]
    show scanStr (c :: (escList rest ++ '"' :: r)) = _
    rw [scanStr_cons_of_ne _ _ h1 h2, ih]
    rfl

/-- Two escaped segments closed by quotes and followed by arbitrary tails can
be split apart: the segments and the tails agree separately. -/
theorem escaped_seg_inj {s1 s2 : String} {r1 r2 : List Char}
    (h : escList s1.data ++ '"' :: r1 = escList s2.data ++ '"' :: r2) :
    s1 = s2 ∧ r1 = r2 := by
  have h1 := scanStr_escList s1.data r1
  have h2 := scanStr_escList s2.data r2
  rw [h] at h1
  rw [h2] at h1
  injection h1 with h1
  rw [Prod.mk.injEq] at h1
  refine ⟨?_, h1.2.symm⟩
  have := escList_inj h1.1
  cases s1
  cases s2
  exact congrArg String.mk this.symm

/-- Splitting on a separator character that occurs in neither left part. -/
theorem sep_split {x1 x2 r1 r2 : List Char} {sep : Char}
    (hx1 : sep ∉ x1) (hx2 : sep ∉ x2)
    (h : x1 ++ sep :: r1 = x2 ++ sep :: r2) : x1 = x2 ∧ r1 = r2 := by
  induction x1 generalizing x2 with
  | nil =>
    cases x2 with
    | nil => simpa using h
    | cons b bs =>
      exfalso
      simp only [List.nil_append, List.cons_append, List.cons.injEq] at h
      exact hx2 (h.1 ▸ List.mem_cons_self b bs)
  | cons a as ih =>
    cases x2 with
    | nil =>
      exfalso
      simp only [List.cons_append, List.nil_append, List.cons.injEq] at h
      exact hx1 (h.1.symm ▸ List.mem_cons_self a as)
    | cons b bs =>
      simp only [List.cons_append, List.cons.injEq] at h
      have hs1 : sep ∉ as := fun hm => hx1 (List.mem_cons_of_mem a hm)
      have hs2 : sep ∉ bs := fun hm => hx2 (List.mem_cons_of_mem b hm)
      have := ih hs1 hs2 h.2
      exact ⟨by rw [h.1, this.1], this.2⟩

/-! ## Lexicographic key order and sorting

`Object.keys(record).sort()` sorts keys with the default comparator, i.e.
lexicographically by code unit.  We model that order executably and use an
insertion sort; on the duplicate-free key lists produced by JavaScript objects
any correct sort yields the same, uniquely determined result. -/

/-- Lexicographic comparison of character sequences by code point. -/
def lexLe : List Char → List Char → Bool
  | [], _ => true
  | _ :: _, [] => false
  | a :: as, b :: bs =>
      if a.toNat < b.toNat then true
      else if b.toNat < a.toNat then false
      else lexLe as bs

/-- Lexicographic comparison of strings, the default JavaScript sort order. -/
def strLe (a b : String) : Bool := lexLe a.data b.data

theorem lexLe_total : ∀ a b : List Char, lexLe a b = true ∨ lexLe b a = true := by
  intro a
  induction a with
  | nil => intro b; left; rfl
  | cons x xs ih =>
    intro b
    cases b with
    | nil => right; rfl
    | cons y ys =>
      by_cases h1 : x.toNat < y.toNat
      · left; simp [lexLe, h1]
      by_cases h2 : y.toNat < x.toNat
      · right; simp [lexLe, h2]
      · have hx : ¬ x.toNat < y.toNat := h1
        rcases ih ys with h | h
        · left; simp [lexLe, h1, h2, h]
        · right; simp [lexLe, h1, h2, h]

theorem lexLe_antisymm : ∀ a b : List Char, lexLe a b = true → lexLe b a = true → a = b := by
  intro a
  induction a with
  | nil =>
    intro b _ hba
    cases b with
    | nil => rfl
    | cons y ys => simp [lexLe] at hba
  | cons x xs ih =>
    intro b hab hba
    cases b with
    | nil => simp [lexLe] at hab
    | cons y ys =>
      by_cases h1 : x.toNat < y.toNat
      · simp [lexLe, h1, Nat.lt_asymm h1] at hba
      by_cases h2 : y.toNat < x.toNat
      · simp [lexLe, h1, h2] at hab
      · have hn : x.toNat = y.toNat := by omega
        have hxy : x = y := by
          have h3 : Char.ofNat x.toNat = Char.ofNat y.toNat := by rw [hn]
          rwa [Char.ofNat_toNat, Char.ofNat_toNat] at h3
        simp [lexLe, h1, h2] at hab hba
        rw [hxy, ih ys hab hba]

theorem lexLe_trans : ∀ a b c : List Char, lexLe a b = true → lexLe b c = true →
    lexLe a c = true := by
  intro a
  induction a with
  | nil => intro b c _ _; rfl
  | cons x xs ih =>
    intro b c hab hbc
    cases b with
    | nil => simp [lexLe] at hab
    | cons y ys =>
      cases c with
      | nil => simp [lexLe] at hbc
      | cons z zs =>
        simp only [lexLe] at hab hbc ⊢
        by_cases h1 : x.toNat < y.toNat <;> by_cases h2 : y.toNat < z.toNat
        · have : x.toNat < z.toNat := Nat.lt_trans h1 h2
          simp [this]
        · simp only [if_pos h1] at hab
          by_cases h3 : z.toNat < y.toNat
          · simp [h2, h3] at hbc
          · have hyz : y.toNat = z.toNat := by omega
            have : x.toNat < z.toNat := by omega
            simp [this]
        · simp only [if_pos h2] at hbc
          by_cases h3 : y.toNat < x.toNat
          · simp [h1, h3] at hab
          · have hxy : x.toNat = y.toNat := by omega
            have : x.toNat < z.toNat := by omega
            simp [this]
        · by_cases h3 : y.toNat < x.toNat
          · simp [h1, h3] at hab
          · by_cases h4 : z.toNat < y.toNat
            · simp [h2, h4] at hbc
            · have hxy : x.toNat = y.toNat := by omega
              have hyz : y.toNat = z.toNat := by omega
              have hxz1 : ¬ x.toNat < z.toNat := by omega
              have hxz2 : ¬ z.toNat < x.toNat := by omega
              simp only [if_neg h1, if_neg h3] at hab
              simp only [if_neg h2, if_neg h4] at hbc
              simp only [if_neg hxz1, if_neg hxz2]
              exact ih ys zs hab hbc

theorem strLe_total (a b : String) : strLe a b = true ∨ strLe b a = true :=
  lexLe_total a.data b.data

theorem strLe_trans {a b c : String} (h1 : strLe a b = true) (h2 : strLe b c = true) :
    strLe a c = true :=
  lexLe_trans a.data b.data c.data h1 h2

theorem strLe_antisymm {a b : String} (h1 : strLe a b = true) (h2 : strLe b a = true) :
    a = b := by
  have := lexLe_antisymm a.data b.data h1 h2
  cases a
  cases b
  exact congrArg String.mk this

/-- Insert a key/rendered-value pair into a key-sorted list. -/
def insertPair (kv : String × String) : List (String × String) → List (String × String)
  | [] => [kv]
  | x :: xs => if strLe kv.1 x.1 then kv :: x :: xs else x :: insertPair kv xs

/-- Sort key/rendered-value pairs by key, the model of
`Object.keys(record).sort()` followed by per-key rendering. -/
def sortPairs : List (String × String) → List (String × String)
  | [] => []
  | kv :: rest => insertPair kv (sortPairs rest)

theorem insertPair_perm (kv : String × String) (l : List (String × String)) :
    (insertPair kv l).Perm (kv :: l) := by
  induction l with
  | nil => exact List.Perm.refl _
  | cons x xs ih =>
    unfold insertPair
    by_cases h : strLe kv.1 x.1
    · rw [if_pos h]
    · rw [if_neg h]
      exact (ih.cons x).trans (List.Perm.swap kv x xs)

theorem sortPairs_perm (l : List (String × String)) : (sortPairs l).Perm l := by
  induction l with
  | nil => exact List.Perm.refl _
  | cons kv rest ih =>
    exact (insertPair_perm kv (sortPairs rest)).trans (ih.cons kv)

/-- The sortedness relation on rendered pairs: keys in lexicographic order. -/
def keyLe (a b : String × String) : Prop := strLe a.1 b.1 = true

theorem insertPair_sorted (kv : String × String) (l : List (String × String))
    (h : l.Pairwise keyLe) : (insertPair kv l).Pairwise keyLe := by
  induction l with
  | nil => simp [insertPair, keyLe]
  | cons x xs ih =>
    rw [List.pairwise_cons] at h
    unfold insertPair
    by_cases hle : strLe kv.1 x.1
    · rw [if_pos hle]
      refine List.Pairwise.cons ?_ (List.Pairwise.cons h.1 h.2)
      intro b hb
      rcases List.mem_cons.mp hb with hb | hb
      · rw [hb]; exact hle
      · exact strLe_trans hle (h.1 b hb)
    · rw [if_neg hle]
      refine List.Pairwise.cons ?_ (ih h.2)
      intro b hb
      have hmem := (insertPair_perm kv xs).mem_iff.mp hb
      rcases List.mem_cons.mp hmem with hb' | hb'
      · rw [hb']
        rcases strLe_total kv.1 x.1 with ht | ht
        · exact absurd ht hle
        · exact ht
      · exact h.1 b hb'

theorem sortPairs_sorted (l : List (String × String)) : (sortPairs l).Pairwise keyLe := by
  induction l with
  | nil => simp [sortPairs]
  | cons kv rest ih => exact insertPair_sorted kv (sortPairs rest) ih

theorem perm_pairwise_asymm_unique {α : Type} {R : α → α → Prop}
    (hR : ∀ a b, R a b → R b a → False) :
    ∀ l1 l2 : List α, l1.Perm l2 → l1.Pairwise R → l2.Pairwise R → l1 = l2 := by
  intro l1
  induction l1 with
  | nil =>
    intro l2 hp _ _
    exact (List.Perm.eq_nil hp.symm).symm
  | cons a t1 ih =>
    intro l2 hp hs1 hs2
    cases l2 with
    | nil => exact absurd (List.Perm.eq_nil hp) (by simp)
    | cons b t2 =>
      by_cases hab : a = b
      · subst hab
        have hperm := hp.cons_inv
        rw [List.pairwise_cons] at hs1 hs2
        rw [ih t2 hperm hs1.2 hs2.2]
      · exfalso
        have ha2 : a ∈ b :: t2 := hp.mem_iff.mp (List.mem_cons_self a t1)
        have hb1 : b ∈ a :: t1 := hp.symm.mem_iff.mp (List.mem_cons_self b t2)
        have hat2 : a ∈ t2 := by
          rcases List.mem_cons.mp ha2 with h | h
          · exact absurd h hab
          · exact h
        have hbt1 : b ∈ t1 := by
          rcases List.mem_cons.mp hb1 with h | h
          · exact absurd h.symm hab
          · exact h
        rw [List.pairwise_cons] at hs1 hs2
        exact hR a b (hs1.1 b hbt1) (hs2.1 a hat2)

/-- On key-duplicate-free inputs the sorted rendering is a function of the
multiset of pairs: any two permuted field lists sort identically. -/
theorem sortPairs_eq_of_perm {l1 l2 : List (String × String)} (hp : l1.Perm l2)
    (hnd : (l1.map Prod.fst).Nodup) : sortPairs l1 = sortPairs l2 := by
  have hs1 := sortPairs_sorted l1
  have hs2 := sortPairs_sorted l2
  have hperm : (sortPairs l1).Perm (sortPairs l2) :=
    (sortPairs_perm l1).trans (hp.trans (sortPairs_perm l2).symm)
  have hnd1 : ((sortPairs l1).map Prod.fst).Nodup :=
    (((sortPairs_perm l1).map Prod.fst).symm).nodup hnd
  have hnd2 : ((sortPairs l2).map Prod.fst).Nodup :=
    (hperm.map Prod.fst).nodup hnd1
  have hne1 : (sortPairs l1).Pairwise (fun a b => a.1 ≠ b.1) := by
    rw [← List.pairwise_map (f := Prod.fst)]
    exact hnd1
  have hne2 : (sortPairs l2).Pairwise (fun a b => a.1 ≠ b.1) := by
    rw [← List.pairwise_map (f := Prod.fst)]
    exact hnd2
  refine perm_pairwise_asymm_unique ?_ _ _ hperm (hs1.and hne1) (hs2.and hne2)
  intro a b h1 h2
  exact h1.2 (strLe_antisymm h1.1 h2.1)

/-! ## The canonical serializer `stableStringify`

Embedding of `stableStringify` from `src/sdk/crypto.ts`: arrays keep their
order, objects are emitted with keys sorted lexicographically at every
nesting level, keys are interpolated raw between quotes, and primitive values
go through `JSON.stringify`.  Sorting the keys and then rendering each value
is modelled as rendering the entries and then sorting the rendered pairs by
key, which commutes because the comparator only reads keys. -/

/-- A JSON-compatible value, the domain of `stableStringify` (numbers are the
naturals used by this protocol: version and timestamps). -/
inductive JsonValue where
  | null
  | bool (b : Bool)
  | num (n : Nat)
  | str (s : String)
  | arr (items : List JsonValue)
  | obj (fields : List (String × JsonValue))

/-- Join rendered pieces with commas, as `.join(",")`. -/
def commaJoin : List String → String
  | [] => ""
  | [x] => x
  | x :: y :: xs => x ++ "," ++ commaJoin (y :: xs)

/-- Render one sorted object entry: the raw key between quotes, a colon, and
the already-rendered value. -/
def renderPair (kv : String × String) : String := "\"" ++ kv.1 ++ "\":" ++ kv.2

/-- The canonical, key-sorted serializer of `src/sdk/crypto.ts`. -/
def stableStringify : JsonValue → String
  | .null => "null"
  | .bool true => "true"
  | .bool false => "false"
  | .num n => natRepr n
  | .str s => quoteString s
  | .arr items => "[" ++ commaJoin (items.attach.map fun x => stableStringify x.1) ++ "]"
  | .obj fields =>
      "\x7b" ++ commaJoin
        ((sortPairs (fields.attach.map fun kv => (kv.1.1, stableStringify kv.1.2))).map
          renderPair) ++ "\x7d"
decreasing_by
  · have h := List.sizeOf_lt_of_mem x.2
    simp_wf
    omega
  · have h := List.sizeOf_lt_of_mem kv.2
    have h2 : sizeOf kv.1.2 < sizeOf kv.1 := by
      obtain ⟨⟨k, v⟩, hk⟩ := kv
      simp
    simp_wf
    omega

theorem ss_arr (items : List JsonValue) :
    stableStringify (.arr items) = "[" ++ commaJoin (items.map stableStringify) ++ "]" := by
  have h : (items.attach.map fun x => stableStringify x.1) = items.map stableStringify :=
    List.attach_map_coe items stableStringify
  rw [stableStringify, h]

theorem ss_obj (fields : List (String × JsonValue)) :
    stableStringify (.obj fields)
      = "\x7b" ++ commaJoin
          ((sortPairs (fields.map fun kv => (kv.1, stableStringify kv.2))).map renderPair)
          ++ "\x7d" := by
  have h : (fields.attach.map fun kv => (kv.1.1, stableStringify kv.1.2))
      = fields.map fun kv => (kv.1, stableStringify kv.2) :=
    List.attach_map_coe fields (fun kv => (kv.1, stableStringify kv.2))
  rw [stableStringify, h]

/-! ## Payloads that are equal as maps

Two payloads are "equal as maps" when they differ only in the insertion order
of object fields, at any nesting level.  `GoodJson` states the well-formedness
JavaScript guarantees for free: object keys are duplicate-free. -/

/-! Reordering equivalence of JSON values: identical leaves, pointwise-equal
arrays, and objects whose field lists are a permutation of pointwise
equivalent entries with identical keys.  `EqList` and `EqEntries` are the
pointwise liftings to arrays and to object entry lists. -/
mutual

/-- JSON values equal up to object field insertion order. -/
inductive EqAsMaps : JsonValue → JsonValue → Prop where
  | null : EqAsMaps .null .null
  | bool (b : Bool) : EqAsMaps (.bool b) (.bool b)
  | num (n : Nat) : EqAsMaps (.num n) (.num n)
  | str (s : String) : EqAsMaps (.str s) (.str s)
  | arr {xs ys : List JsonValue} :
      EqList xs ys → EqAsMaps (.arr xs) (.arr ys)
  | obj {fs mid gs : List (String × JsonValue)} :
      fs.Perm mid → EqEntries mid gs → EqAsMaps (.obj fs) (.obj gs)

inductive EqList : List JsonValue → List JsonValue → Prop where
  | nil : EqList [] []
  | cons {x y : JsonValue} {xs ys : List JsonValue} :
      EqAsMaps x y → EqList xs ys → EqList (x :: xs) (y :: ys)

inductive EqEntries : List (String × JsonValue) → List (String × JsonValue) → Prop where
  | nil : EqEntries [] []
  | cons {k : String} {v w : JsonValue} {vs ws : List (String × JsonValue)} :
      EqAsMaps v w → EqEntries vs ws → EqEntries ((k, v) :: vs) ((k, w) :: ws)

end

/-- Well-formedness of a payload as produced by a JavaScript object graph:
every object level has duplicate-free keys. -/
inductive GoodJson : JsonValue → Prop where
  | null : GoodJson .null
  | bool (b : Bool) : GoodJson (.bool b)
  | num (n : Nat) : GoodJson (.num n)
  | str (s : String) : GoodJson (.str s)
  | arr {items : List JsonValue} :
      (∀ x ∈ items, GoodJson x) → GoodJson (.arr items)
  | obj {fields : List (String × JsonValue)} :
      (fields.map Prod.fst).Nodup →
      (∀ kv ∈ fields, GoodJson kv.2) → GoodJson (.obj fields)

theorem eqList_map_ss {n : Nat}
    (ih : ∀ p q, sizeOf p ≤ n → GoodJson p → EqAsMaps p q →
      stableStringify p = stableStringify q) :
    ∀ xs ys : List JsonValue, EqList xs ys →
      (∀ x ∈ xs, sizeOf x ≤ n ∧ GoodJson x) →
      xs.map stableStringify = ys.map stableStringify := by
  intro xs
  induction xs with
  | nil => intro ys h _; cases h; rfl
  | cons x xt iht =>
    intro ys h hside
    cases h with
    | cons hxy htail =>
      rename_i y yt
      have hx := hside x (List.mem_cons_self x xt)
      have hrest := iht yt htail (fun z hz => hside z (List.mem_cons_of_mem _ hz))
      simp only [List.map_cons, ih x y hx.1 hx.2 hxy, hrest]

theorem eqEntries_map_render {n : Nat}
    (ih : ∀ p q, sizeOf p ≤ n → GoodJson p → EqAsMaps p q →
      stableStringify p = stableStringify q) :
    ∀ ms gs : List (String × JsonValue), EqEntries ms gs →
      (∀ kv ∈ ms, sizeOf kv.2 ≤ n ∧ GoodJson kv.2) →
      (ms.map fun kv => (kv.1, stableStringify kv.2))
        = gs.map fun kv => (kv.1, stableStringify kv.2) := by
  intro ms
  induction ms with
  | nil => intro gs h _; cases h; rfl
  | cons kv mt iht =>
    intro gs h hside
    cases h with
    | cons hvw htail =>
      rename_i k v w ws
      have hx := hside (k, v) (List.mem_cons_self _ mt)
      have hrest := iht ws htail (fun z hz => hside z (List.mem_cons_of_mem _ hz))
      simp only [List.map_cons, ih v w hx.1 hx.2 hvw, hrest]

theorem ss_eqAsMaps_aux :
    ∀ n : Nat, ∀ p q : JsonValue, sizeOf p ≤ n → GoodJson p → EqAsMaps p q →
      stableStringify p = stableStringify q := by
  intro n
  induction n with
  | zero =>
    intro p q hsz _ _
    exfalso
    cases p <;> simp at hsz
  | succ n ih =>
    intro p q hsz hgood heq
    cases heq with
    | null => rfl
    | bool b => rfl
    | num m => rfl
    | str s => rfl
    | arr hf2 =>
      rename_i xs ys
      rw [ss_arr, ss_arr]
      have hside : ∀ x ∈ xs, sizeOf x ≤ n ∧ GoodJson x := by
        intro x hx
        constructor
        · have h1 := List.sizeOf_lt_of_mem hx
          have h2 : sizeOf (JsonValue.arr xs) = 1 + sizeOf xs := by simp
          omega
        · cases hgood with
          | arr hg => exact hg x hx
      rw [eqList_map_ss ih xs ys hf2 hside]
    | obj hperm hf2 =>
      rename_i fs mid gs
      rw [ss_obj, ss_obj]
      have hside : ∀ kv ∈ mid, sizeOf kv.2 ≤ n ∧ GoodJson kv.2 := by
        intro kv hkv
        have hkvfs : kv ∈ fs := hperm.symm.mem_iff.mp hkv
        constructor
        · have h1 := List.sizeOf_lt_of_mem hkvfs
          have h2 : sizeOf (JsonValue.obj fs) = 1 + sizeOf fs := by simp
          have h3 : sizeOf kv.2 < sizeOf kv := by
            obtain ⟨k, v⟩ := kv
            simp
          omega
        · cases hgood with
          | obj hnd hg => exact hg kv hkvfs
      have hrender := eqEntries_map_render ih mid gs hf2 hside
      have hpermrender : (fs.map fun kv => (kv.1, stableStringify kv.2)).Perm
          (gs.map fun kv => (kv.1, stableStringify kv.2)) := by
        have h1 := hperm.map (fun kv => (kv.1, stableStringify kv.2))
        rw [hrender] at h1
        exact h1
      have hnd : ((fs.map fun kv => (kv.1, stableStringify kv.2)).map Prod.fst).Nodup := by
        have heq1 : (fs.map fun kv => (kv.1, stableStringify kv.2)).map Prod.fst
            = fs.map Prod.fst := by
          rw [List.map_map]
          rfl
        rw [heq1]
        cases hgood with
        | obj hnd2 hg => exact hnd2
      rw [sortPairs_eq_of_perm hpermrender hnd]

/-! ## The ideal ed25519 model and the signable chat projection -/

/-- Model of `ed25519.getPublicKey`: an opaque injective mapping from private
to public signing keys. -/
def edPub (sk : Bytes) : Bytes := "ed25519-pub:" ++ sk

/-- An ed25519 signature in the ideal-scheme model: it records the public
half of the signing key and the exact canonical byte string signed. -/
structure SigEd where
  pk : Bytes
  msg : String
deriving DecidableEq

/-- `signPayload` of `src/sdk/crypto.ts`: sign the canonical serialization of
the payload (the ed25519 primitive itself is the ideal scheme). -/
def signPayload (payload : JsonValue) (privateKey : Bytes) : SigEd :=
  ⟨edPub privateKey, stableStringify payload⟩

/-- `verifyPayload` of `src/sdk/crypto.ts`: verify a signature against the
canonical serialization of the payload and the sender's public key. -/
def verifyPayload (payload : JsonValue) (sig : SigEd) (publicKey : Bytes) : Bool :=
  sig.pk == publicKey && sig.msg == stableStringify payload

/-- The signable projection of a chat envelope (`signaturePayload` for
`type == "chat"`): every field except the signature itself. -/
structure ChatSignable where
  v : Nat
  conversationId : String
  messageId : String
  senderId : String
  senderEd25519 : String
  senderX25519 : String
  timestamp : Nat
  nonce : String
  ciphertext : String
deriving DecidableEq

/-- The signable chat projection as the JSON object the source builds, in the
source's insertion order (the canonical serializer re-sorts the keys). -/
def chatSignableJson (r : ChatSignable) : JsonValue :=
  .obj [("v", .num r.v), ("type", .str "chat"),
        ("conversationId", .str r.conversationId), ("messageId", .str r.messageId),
        ("senderId", .str r.senderId), ("senderEd25519", .str r.senderEd25519),
        ("senderX25519", .str r.senderX25519), ("timestamp", .num r.timestamp),
        ("nonce", .str r.nonce), ("ciphertext", .str r.ciphertext)]

theorem ss_num (n : Nat) : stableStringify (.num n) = natRepr n := by
  simp [stableStringify]

theorem ss_str (s : String) : stableStringify (.str s) = quoteString s := by
  simp [stableStringify]


theorem escString_data (s : String) : (escString s).data = escList s.data := rfl

theorem string_mk_data (s : String) : String.mk s.data = s := by cases s; rfl

theorem comma_not_in_natRepr (t : Nat) : ',' ∉ (natRepr t).data := by
  intro hm
  have h := natRepr_chars (n := t) ',' hm
  exact absurd h (by decide)

theorem brace_not_in_natRepr (t : Nat) : '\x7d' ∉ (natRepr t).data := by
  intro hm
  have h := natRepr_chars (n := t) '\x7d' hm
  exact absurd h (by decide)

theorem sortPairs_chat (a b c d e f g h i j : String) :
    sortPairs [("v", a), ("type", b), ("conversationId", c), ("messageId", d),
               ("senderId", e), ("senderEd25519", f), ("senderX25519", g),
               ("timestamp", h), ("nonce", i), ("ciphertext", j)]
      = [("ciphertext", j), ("conversationId", c), ("messageId", d), ("nonce", i),
         ("senderEd25519", f), ("senderId", e), ("senderX25519", g),
         ("timestamp", h), ("type", b), ("v", a)] := rfl

set_option maxRecDepth 4000 in
/-- The canonical serialization is injective on signable chat projections:
two such records with any differing field serialize differently. -/
theorem chatSignableJson_ss_inj {r1 r2 : ChatSignable}
    (h : stableStringify (chatSignableJson r1) = stableStringify (chatSignableJson r2)) :
    r1 = r2 := by
  obtain ⟨v1, cid1, mid1, sid1, ed1, x1, ts1, n1, ct1⟩ := r1
  obtain ⟨v2, cid2, mid2, sid2, ed2, x2, ts2, n2, ct2⟩ := r2
  have hd := congrArg String.data h
  simp only [chatSignableJson, ss_obj, List.map_cons, List.map_nil, ss_num, ss_str,
    sortPairs_chat, commaJoin, renderPair, quoteString, String.data_append,
    escString_data, escList, escChar, List.append_assoc, List.cons_append,
    List.nil_append, List.singleton_append, List.cons.injEq, true_and] at hd
  obtain ⟨hct, hd⟩ := escaped_seg_inj hd
  simp only [List.cons.injEq, true_and] at hd
  obtain ⟨hcid, hd⟩ := escaped_seg_inj hd
  simp only [List.cons.injEq, true_and] at hd
  obtain ⟨hmid, hd⟩ := escaped_seg_inj hd
  simp only [List.cons.injEq, true_and] at hd
  obtain ⟨hn, hd⟩ := escaped_seg_inj hd
  simp only [List.cons.injEq, true_and] at hd
  obtain ⟨hed, hd⟩ := escaped_seg_inj hd
  simp only [List.cons.injEq, true_and] at hd
  obtain ⟨hsid, hd⟩ := escaped_seg_inj hd
  simp only [List.cons.injEq, true_and] at hd
  obtain ⟨hx, hd⟩ := escaped_seg_inj hd
  simp only [List.cons.injEq, true_and] at hd
  obtain ⟨hts, hd⟩ := sep_split (comma_not_in_natRepr ts1) (comma_not_in_natRepr ts2) hd
  have hts2 : ts1 = ts2 := by
    have h1 := congrArg String.mk hts
    rw [string_mk_data, string_mk_data] at h1
    exact natRepr_inj h1
  simp at hd
  have hv2 : v1 = v2 := by
    have h1 := congrArg String.mk hd
    rw [string_mk_data, string_mk_data] at h1
    exact natRepr_inj h1
  simp only [ChatSignable.mk.injEq]
  exact ⟨hv2, hcid, hmid, hsid, hed, hx, hts2, hn, hct⟩

/-- C7: For every payload value and signing keypair, verification of a
freshly produced signature succeeds; signing and verification operate over
the canonical serialization, so any two payloads that are equal as maps
(regardless of field insertion order, keys duplicate-free) serialize
identically and verify interchangeably; and altering any signable field of a
chat projection makes verification fail. -/
theorem C7_sign_verify_canonical :
    ∀ (p q : JsonValue) (sk : Bytes) (r1 r2 : ChatSignable),
      verifyPayload p (signPayload p sk) (edPub sk) = true ∧
      (GoodJson p → EqAsMaps p q →
        stableStringify p = stableStringify q ∧
        verifyPayload q (signPayload p sk) (edPub sk) = true) ∧
      (r1 ≠ r2 →
        verifyPayload (chatSignableJson r2) (signPayload (chatSignableJson r1) sk)
          (edPub sk) = false) := by
  intro p q sk r1 r2
  refine ⟨?_, ?_, ?_⟩
  · simp [verifyPayload, signPayload]
  · intro hg he
    have hss := ss_eqAsMaps_aux (sizeOf p) p q (Nat.le_refl _) hg he
    exact ⟨hss, by simp [verifyPayload, signPayload, hss]⟩
  · intro hne
    simp only [verifyPayload, signPayload, Bool.and_eq_false_iff]
    right
    rw [beq_eq_false_iff_ne]
    exact fun hcontra => hne (chatSignableJson_ss_inj hcontra)

/-- A concrete payload with fields inserted in unsorted order. -/
def pEx : JsonValue := .obj [("b", .str "y"), ("a", .num 3)]

/-- The same payload as `pEx` with the opposite insertion order. -/
def qEx : JsonValue := .obj [("a", .num 3), ("b", .str "y")]

theorem pEx_good : GoodJson pEx := by
  refine GoodJson.obj (by decide) ?_
  intro kv hkv
  rcases List.mem_cons.mp hkv with h | h
  · rw [h]; exact GoodJson.str "y"
  · rcases List.mem_cons.mp h with h2 | h2
    · rw [h2]; exact GoodJson.num 3
    · simp at h2

theorem pEx_eq_qEx : EqAsMaps pEx qEx := by
  refine EqAsMaps.obj
    (List.Perm.swap ("a", JsonValue.num 3) ("b", JsonValue.str "y") []) ?_
  exact EqEntries.cons (EqAsMaps.num 3) (EqEntries.cons (EqAsMaps.str "y") EqEntries.nil)

/-- Witness for C7 at concrete inputs: a reordered two-field object signs and
verifies interchangeably, and two chat projections differing in one field
fail cross-verification. -/
theorem C7_witness :
    verifyPayload pEx (signPayload pEx "sk1") (edPub "sk1") = true ∧
    stableStringify pEx = stableStringify qEx ∧
    verifyPayload qEx (signPayload pEx "sk1") (edPub "sk1") = true ∧
    verifyPayload
      (chatSignableJson ⟨1, "c1", "m2", "alice", "edA", "xA", 10, "n1", "ct1"⟩)
      (signPayload (chatSignableJson ⟨1, "c1", "m1", "alice", "edA", "xA", 10, "n1", "ct1"⟩) "sk1")
      (edPub "sk1") = false := by
  have h := C7_sign_verify_canonical pEx qEx "sk1"
    ⟨1, "c1", "m1", "alice", "edA", "xA", 10, "n1", "ct1"⟩
    ⟨1, "c1", "m2", "alice", "edA", "xA", 10, "n1", "ct1"⟩
  have hb := h.2.1 pEx_good pEx_eq_qEx
  exact ⟨h.1, hb.1, hb.2, h.2.2 (by decide)⟩

/-! ## Client data model

Embedding of `src/sdk/types.ts` and the `ChatClient` state of
`src/sdk/chatClient.ts`.  Signing of wire envelopes operates on the signable
projection as a structure; by `chatSignableJson_ss_inj`, equality of canonical
serializations coincides with structural equality on this domain, so the ideal
ed25519 model compares projections structurally. -/

/-- The envelope tag: a chat message or a revocation tombstone. -/
inductive WireType where
  | chat
  | tombstone
deriving DecidableEq

/-- The public projection of an identity, exchanged out of band. -/
structure Participant where
  id : String
  ed25519PublicKey : Bytes
  x25519PublicKey : Bytes
deriving DecidableEq

/-- Direct (pairwise) or group conversation. -/
inductive ConversationType where
  | direct
  | group
deriving DecidableEq

/-- Conversation configuration as in `types.ts`. -/
structure ConversationConfig where
  id : String
  type : ConversationType
  participants : List Participant
  sharedKeyBase64 : Option Bytes
  adminIds : Option (List String)
deriving DecidableEq

/-- A stored chat message. -/
structure ChatMessage where
  id : String
  conversationId : String
  senderId : String
  text : String
  timestamp : Nat
  revoked : Bool
  deleted : Bool
deriving DecidableEq

/-- A revocation request. -/
structure Tombstone where
  targetMessageId : String
  issuerId : String
  timestamp : Nat
deriving DecidableEq

/-- An event delivered to subscription handlers. -/
inductive ChatEvent where
  | message (m : ChatMessage)
  | tombstone (t : Tombstone)
deriving DecidableEq

/-- An AEAD ciphertext in the ideal-cipher model: decryption recovers the
plaintext exactly when key and nonce match. -/
structure Ciphertext where
  key : Bytes
  nonce : Bytes
  plain : String
deriving DecidableEq

/-- A client identity: signing and key-agreement keypairs. -/
structure Identity where
  id : String
  ed25519PrivateKey : Bytes
  ed25519PublicKey : Bytes
  x25519PrivateKey : Bytes
  x25519PublicKey : Bytes
deriving DecidableEq

/-- The signable projection of a wire envelope (`signaturePayload`): every
field but the signature; the chat branch omits `targetMessageId`, the
tombstone branch omits `nonce` and `ciphertext`. -/
structure SignablePayload where
  v : Nat
  type : WireType
  conversationId : String
  messageId : String
  senderId : String
  senderEd25519 : Bytes
  senderX25519 : Bytes
  timestamp : Nat
  nonce : Option Bytes
  ciphertext : Option Ciphertext
  targetMessageId : Option String
deriving DecidableEq

/-- A signature over a signable projection, in the ideal ed25519 model. -/
structure WireSig where
  pk : Bytes
  payload : SignablePayload
deriving DecidableEq

/-- Sign a signable projection (ideal ed25519 over the canonical form). -/
def signWire (p : SignablePayload) (sk : Bytes) : WireSig := ⟨edPub sk, p⟩

/-- Verify a signature against a signable projection and a public key. -/
def verifyWire (p : SignablePayload) (s : WireSig) (pk : Bytes) : Bool :=
  s.pk == pk && s.payload == p

/-- A parsed wire envelope. -/
structure WireMessage where
  v : Nat
  type : WireType
  conversationId : String
  messageId : String
  senderId : String
  senderEd25519 : Bytes
  senderX25519 : Bytes
  timestamp : Nat
  nonce : Option Bytes
  ciphertext : Option Ciphertext
  targetMessageId : Option String
  signature : WireSig
deriving DecidableEq

/-- `ChatClient.signaturePayload`: the signable projection of an envelope. -/
def signaturePayload (m : WireMessage) : SignablePayload :=
  match m.type with
  | .tombstone =>
      { v := m.v, type := m.type, conversationId := m.conversationId,
        messageId := m.messageId, senderId := m.senderId,
        senderEd25519 := m.senderEd25519, senderX25519 := m.senderX25519,
        timestamp := m.timestamp, nonce := none, ciphertext := none,
        targetMessageId := m.targetMessageId }
  | .chat =>
      { v := m.v, type := m.type, conversationId := m.conversationId,
        messageId := m.messageId, senderId := m.senderId,
        senderEd25519 := m.senderEd25519, senderX25519 := m.senderX25519,
        timestamp := m.timestamp, nonce := m.nonce, ciphertext := m.ciphertext,
        targetMessageId := none }

/-- `encryptPayload` of `crypto.ts` in the ideal-cipher model; the random
nonce of the source is an explicit input. -/
def encryptPayload (plaintext : String) (key : Bytes) (nonce : Bytes) : Ciphertext :=
  ⟨key, nonce, plaintext⟩

/-- `decryptPayload` of `crypto.ts`: authenticated decryption, failing (as
the source's thrown tag-mismatch error) unless key and nonce match. -/
def decryptPayload (ciphertext : Ciphertext) (nonce : Bytes) (key : Bytes) : Option String :=
  if ciphertext.key == key && ciphertext.nonce == nonce then some ciphertext.plain else none

/-- Model of `x25519.getSharedSecret` as an opaque tagged byte string. -/
def x25519Shared (localPrivateKey remotePublicKey : Bytes) : Bytes :=
  "x25519:" ++ localPrivateKey ++ "|" ++ remotePublicKey

/-- Model of `hkdf(sha256, ikm, salt, info, 32)` with the fixed domain salt. -/
def hkdfKey (info : String) (ikm : Bytes) : Bytes := "hkdf:" ++ info ++ "|" ++ ikm

/-- `deriveDirectKey` of `crypto.ts`: key agreement then key derivation with
the per-conversation info string `direct:<conversationId>`. -/
def deriveDirectKey (conversationId : String) (localPrivateKey remotePublicKey : Bytes) : Bytes :=
  hkdfKey ("direct:" ++ conversationId) (x25519Shared localPrivateKey remotePublicKey)

/-- `deriveGroupKey` of `crypto.ts`: key derivation from the pre-shared group
key with info string `group:<conversationId>`. -/
def deriveGroupKey (conversationId : String) (sharedKey : Bytes) : Bytes :=
  hkdfKey ("group:" ++ conversationId) sharedKey

/-- Model of the base64 rendering of a ciphertext on the wire. -/
def ctB64 (c : Ciphertext) : String := "b64(" ++ c.key ++ "|" ++ c.nonce ++ "|" ++ c.plain ++ ")"

/-- `canonicalId` of `crypto.ts`: the content hash (ideal sha256, base64) of
the pipe-joined parts. -/
def canonicalId (parts : List String) : String :=
  "sha256:" ++ String.intercalate "|" parts

/-! ## Maps and the client state -/

/-- `Map.get`: the value at a key, if present. -/
def mapGet {α : Type} (l : List (String × α)) (k : String) : Option α :=
  (l.find? (fun p => p.1 == k)).map (fun p => p.2)

/-- `Map.set`: update the entry in place when the key exists (JavaScript maps
have unique keys), append at the end otherwise. -/
def mapSet {α : Type} : List (String × α) → String → α → List (String × α)
  | [], k, v => [(k, v)]
  | p :: t, k, v => if p.1 == k then (k, v) :: t else p :: mapSet t k v

theorem mapGet_set_self {α : Type} (l : List (String × α)) (k : String) (v : α) :
    mapGet (mapSet l k v) k = some v := by
  induction l with
  | nil => simp [mapSet, mapGet, List.find?]
  | cons p t ih =>
    by_cases hp : p.1 == k
    · simp [mapSet, hp, mapGet, List.find?]
    · have hpf : (p.1 == k) = false := by simpa using hp
      simp only [mapSet, hpf, Bool.false_eq_true, if_false]
      simp only [mapGet, List.find?, hpf] at ih ⊢
      exact ih

theorem mapGet_set_ne {α : Type} (l : List (String × α)) (k k2 : String) (v : α)
    (h : k2 ≠ k) : mapGet (mapSet l k v) k2 = mapGet l k2 := by
  induction l with
  | nil =>
    have : (k == k2) = false := by simpa using fun he => h (he.symm)
    simp [mapSet, mapGet, List.find?, this]
  | cons p t ih =>
    by_cases hp : p.1 == k
    · have hk2 : (k == k2) = false := by simpa using fun he => h (he.symm)
      have hpk2 : (p.1 == k2) = false := by
        have hpk : p.1 = k := by simpa using hp
        simpa [hpk] using fun he => h (he.symm)
      simp [mapSet, hp, mapGet, List.find?, hk2, hpk2]
    · have hpf : (p.1 == k) = false := by simpa using hp
      simp only [mapSet, hpf, Bool.false_eq_true, if_false]
      by_cases hpk2 : p.1 == k2
      · simp [mapGet, List.find?, hpk2]
      · have hpk2f : (p.1 == k2) = false := by simpa using hpk2
        simp only [mapGet, List.find?, hpk2f] at ih ⊢
        exact ih

theorem mapSet_set_same {α : Type} (l : List (String × α)) (k : String) (v : α) :
    mapSet (mapSet l k v) k v = mapSet l k v := by
  induction l with
  | nil => simp [mapSet]
  | cons p t ih =>
    by_cases hp : p.1 == k
    · simp [mapSet, hp]
    · have hpf : (p.1 == k) = false := by simpa using hp
      simp only [mapSet, hpf, Bool.false_eq_true, if_false]
      rw [ih]

/-- Error taxonomy of the specification, carrying the source's messages. -/
inductive ChatError where
  | configuration (msg : String)
  | authorization (msg : String)
  | notFound (msg : String)
  | transport (msg : String)
deriving DecidableEq

/-- Outcome reported by the transport for one publish call. -/
inductive TransportResult where
  | delivered (successCount : Nat)
  | timeout
deriving DecidableEq

/-- The mutable state of one `ChatClient`: its identity, the conversation,
message and pending-tombstone maps, plus append-only logs of the events
emitted to handlers and of the envelopes handed to the transport. -/
structure ClientState where
  identity : Identity
  conversations : List (String × ConversationConfig)
  messages : List (String × ChatMessage)
  pendingTombstones : List (String × Tombstone)
  events : List (String × ChatEvent)
  published : List (String × WireMessage)
deriving DecidableEq

/-- `ChatClient.canRevoke`: the issuer is the original sender, or is listed
in the conversation's admin set. -/
def canRevoke (conversation : ConversationConfig) (issuerId originalSenderId : String) : Bool :=
  if issuerId == originalSenderId then true
  else (conversation.adminIds.getD []).contains issuerId

/-- `ChatClient.getConversation`: look up a joined conversation or fail. -/
def getConversation (s : ClientState) (conversationId : String) :
    Except ChatError ConversationConfig :=
  match mapGet s.conversations conversationId with
  | some c => .ok c
  | none => .error (.configuration ("Conversation " ++ conversationId ++ " not found"))

/-- `ChatClient.deriveConversationKey`: group key derivation from the shared
key, or direct key derivation against the first non-self participant. -/
def deriveConversationKey (s : ClientState) (conversation : ConversationConfig) :
    Except ChatError Bytes :=
  match conversation.type with
  | .group =>
      match conversation.sharedKeyBase64 with
      | none => .error (.configuration "Group conversation requires shared key")
      | some sharedKey => .ok (deriveGroupKey conversation.id sharedKey)
  | .direct =>
      match conversation.participants.find? (fun p => p.id != s.identity.id) with
      | none => .error (.configuration "Direct conversation requires remote participant")
      | some remote =>
          .ok (deriveDirectKey conversation.id s.identity.x25519PrivateKey remote.x25519PublicKey)

/-- `ChatClient.emit`: deliver an event to the conversation's handlers,
modelled as appending to the event log. -/
def emit (s : ClientState) (conversationId : String) (event : ChatEvent) : ClientState :=
  { s with events := s.events ++ [(conversationId, event)] }

/-- `ChatClient.publish`: record the envelope handed to the transport, then
fail with a transport error on timeout or on zero successful deliveries. -/
def publish (s : ClientState) (conversationId : String) (envelope : WireMessage)
    (tr : TransportResult) : ClientState × Except ChatError Unit :=
  let s1 := { s with published := s.published ++ [(conversationId, envelope)] }
  match tr with
  | .timeout => (s1, .error (.transport "Timeout"))
  | .delivered n => if n == 0 then (s1, .error (.transport "LightPush send failed")) else (s1, .ok ())

/-- `ChatClient.applyTombstone`: mark a stored target revoked, or buffer the
tombstone as pending when the target is absent; either way emit the
tombstone event. -/
def applyTombstone (s : ClientState) (conversationId : String) (tombstone : Tombstone) :
    ClientState :=
  match mapGet s.messages tombstone.targetMessageId with
  | some message =>
      let revokedMessage := { message with revoked := true }
      let s2 := { s with messages := mapSet s.messages tombstone.targetMessageId revokedMessage }
      emit s2 conversationId (.tombstone tombstone)
  | none =>
      let pend2 := mapSet s.pendingTombstones tombstone.targetMessageId tombstone
      let s2 := { s with pendingTombstones := pend2 }
      emit s2 conversationId (.tombstone tombstone)

/-- `ChatClient.deleteMessage`: set the local-only deleted flag when the
message exists; a silent no-op otherwise. -/
def deleteMessage (s : ClientState) (messageId : String) : ClientState :=
  match mapGet s.messages messageId with
  | some message =>
      { s with messages := mapSet s.messages messageId { message with deleted := true } }
  | none => s

/-- `ChatClient.sendMessage`: derive the key, encrypt, build and sign the
envelope, store the message and emit the local event, then publish.  The
random nonce and `Date.now()` of the source are explicit inputs; the
transport outcome is an input as well. -/
def sendMessage (s : ClientState) (conversationId : String) (plaintext : String)
    (nonce : Bytes) (now : Nat) (tr : TransportResult) :
    ClientState × Except ChatError String :=
  match getConversation s conversationId with
  | .error e => (s, .error e)
  | .ok conversation =>
    match deriveConversationKey s conversation with
    | .error e => (s, .error e)
    | .ok key =>
      let ct := encryptPayload plaintext key nonce
      let messageId := canonicalId [conversationId, s.identity.id, nonce, ctB64 ct, natRepr now]
      let base : SignablePayload :=
        { v := 1, type := .chat, conversationId := conversationId, messageId := messageId,
          senderId := s.identity.id, senderEd25519 := s.identity.ed25519PublicKey,
          senderX25519 := s.identity.x25519PublicKey, timestamp := now,
          nonce := some nonce, ciphertext := some ct, targetMessageId := none }
      let envelope : WireMessage :=
        { v := 1, type := .chat, conversationId := conversationId, messageId := messageId,
          senderId := s.identity.id, senderEd25519 := s.identity.ed25519PublicKey,
          senderX25519 := s.identity.x25519PublicKey, timestamp := now,
          nonce := some nonce, ciphertext := some ct, targetMessageId := none,
          signature := signWire base s.identity.ed25519PrivateKey }
      let message : ChatMessage :=
        { id := messageId, conversationId := conversationId, senderId := s.identity.id,
          text := plaintext, timestamp := now, revoked := false, deleted := false }
      let s1 := emit { s with messages := mapSet s.messages messageId message }
        conversationId (.message message)
      match publish s1 conversationId envelope tr with
      | (s2, .error e) => (s2, .error e)
      | (s2, .ok _) => (s2, .ok messageId)

/-- `ChatClient.revokeMessage`: require the conversation and the stored
target, check authorization, then apply the tombstone locally and publish
the signed tombstone envelope. -/
def revokeMessage (s : ClientState) (conversationId targetMessageId : String)
    (now : Nat) (tr : TransportResult) : ClientState × Except ChatError Unit :=
  match getConversation s conversationId with
  | .error e => (s, .error e)
  | .ok conversation =>
    match mapGet s.messages targetMessageId with
    | none => (s, .error (.notFound "Message not found"))
    | some message =>
      if canRevoke conversation s.identity.id message.senderId then
        let base : SignablePayload :=
          { v := 1, type := .tombstone, conversationId := conversationId,
            messageId := canonicalId [conversationId, targetMessageId, s.identity.id, natRepr now],
            senderId := s.identity.id, senderEd25519 := s.identity.ed25519PublicKey,
            senderX25519 := s.identity.x25519PublicKey, timestamp := now,
            nonce := none, ciphertext := none, targetMessageId := some targetMessageId }
        let envelope : WireMessage :=
          { v := 1, type := .tombstone, conversationId := conversationId,
            messageId := canonicalId [conversationId, targetMessageId, s.identity.id, natRepr now],
            senderId := s.identity.id, senderEd25519 := s.identity.ed25519PublicKey,
            senderX25519 := s.identity.x25519PublicKey, timestamp := now,
            nonce := none, ciphertext := none, targetMessageId := some targetMessageId,
            signature := signWire base s.identity.ed25519PrivateKey }
        let s1 := applyTombstone s conversationId ⟨targetMessageId, s.identity.id, now⟩
        publish s1 conversationId envelope tr
      else (s, .error (.authorization "Not authorized to revoke"))

/-- `ChatClient.handleDecodedMessage`: the receive path.  Drop envelopes for
other conversations, envelopes with invalid signatures, malformed envelopes
and undecryptable ciphertexts; route tombstones through the authorization
check (against the locally known sender, or the empty string when unknown);
store and announce new chat messages, consulting the pending-tombstone set.
An `Except.error` result models an exception escaping the async handler. -/
def handleDecodedMessage (s : ClientState) (conversationId : String) (parsed : WireMessage) :
    ClientState × Except ChatError Unit :=
  if parsed.conversationId != conversationId then (s, .ok ())
  else if !(verifyWire (signaturePayload parsed) parsed.signature parsed.senderEd25519) then
    (s, .ok ())
  else
    match parsed.type with
    | .tombstone =>
      match parsed.targetMessageId with
      | none => (s, .ok ())
      | some target =>
        let tombstone : Tombstone :=
          ⟨target, parsed.senderId, parsed.timestamp⟩
        match getConversation s conversationId with
        | .error e => (s, .error e)
        | .ok conversation =>
          if canRevoke conversation tombstone.issuerId
              (((mapGet s.messages tombstone.targetMessageId).map (fun m => m.senderId)).getD "") then
            (applyTombstone s conversationId tombstone, .ok ())
          else (s, .ok ())
    | .chat =>
      match parsed.ciphertext, parsed.nonce with
      | some ct, some nonce =>
        match getConversation s conversationId with
        | .error e => (s, .error e)
        | .ok conversation =>
          match deriveConversationKey s conversation with
          | .error e => (s, .error e)
          | .ok key =>
            match decryptPayload ct nonce key with
            | none => (s, .ok ())
            | some text =>
              let chatMessage : ChatMessage :=
                { id := parsed.messageId, conversationId := conversationId,
                  senderId := parsed.senderId, text := text, timestamp := parsed.timestamp,
                  revoked := false, deleted := false }
              if (mapGet s.messages chatMessage.id).isSome then (s, .ok ())
              else
                let chatMessage2 :=
                  if (mapGet s.pendingTombstones chatMessage.id).isSome then
                    { chatMessage with revoked := true }
                  else chatMessage
                (emit { s with messages := mapSet s.messages chatMessage.id chatMessage2 }
                  conversationId (.message chatMessage2), .ok ())
      | _, _ => (s, .ok ())

/-! ## Helper characterizations of the operations -/

theorem applyTombstone_stored {s : ClientState} {conversationId : String} {t : Tombstone}
    {m : ChatMessage} (hm : mapGet s.messages t.targetMessageId = some m) :
    applyTombstone s conversationId t
      = { s with messages := mapSet s.messages t.targetMessageId { m with revoked := true },
                 events := s.events ++ [(conversationId, .tombstone t)] } := by
  unfold applyTombstone emit
  rw [hm]

theorem applyTombstone_missing {s : ClientState} {conversationId : String} {t : Tombstone}
    (hm : mapGet s.messages t.targetMessageId = none) :
    applyTombstone s conversationId t
      = { s with pendingTombstones := mapSet s.pendingTombstones t.targetMessageId t,
                 events := s.events ++ [(conversationId, .tombstone t)] } := by
  unfold applyTombstone emit
  rw [hm]

theorem canRevoke_iff (conversation : ConversationConfig) (issuerId originalSenderId : String) :
    canRevoke conversation issuerId originalSenderId = true
      ↔ (issuerId = originalSenderId ∨ issuerId ∈ conversation.adminIds.getD []) := by
  unfold canRevoke
  by_cases h : issuerId == originalSenderId
  · have heq : issuerId = originalSenderId := eq_of_beq h
    simp [h, heq]
  · have hne : issuerId ≠ originalSenderId := by simpa using h
    simp [h, hne, List.contains, List.elem_iff]

/-! ## Claims about the store and receive path -/

/-- C8: Applying the same tombstone twice in succession leaves the store (the
messages map and the pending-tombstone set) in the same state as applying it
once: a stored target stays revoked, and the pending entry for an absent
target is unchanged by the second application. -/
theorem C8_applyTombstone_idempotent :
    ∀ (s : ClientState) (conversationId : String) (t : Tombstone),
      (applyTombstone (applyTombstone s conversationId t) conversationId t).messages
        = (applyTombstone s conversationId t).messages ∧
      (applyTombstone (applyTombstone s conversationId t) conversationId t).pendingTombstones
        = (applyTombstone s conversationId t).pendingTombstones := by
  intro s conversationId t
  cases hm : mapGet s.messages t.targetMessageId with
  | some m =>
    rw [applyTombstone_stored hm]
    have hm2 : mapGet (mapSet s.messages t.targetMessageId { m with revoked := true })
        t.targetMessageId = some { m with revoked := true } := mapGet_set_self _ _ _
    rw [applyTombstone_stored (by exact hm2)]
    constructor
    · show mapSet (mapSet s.messages t.targetMessageId { m with revoked := true })
          t.targetMessageId { { m with revoked := true } with revoked := true }
        = mapSet s.messages t.targetMessageId { m with revoked := true }
      exact mapSet_set_same _ _ _
    · rfl
  | none =>
    rw [applyTombstone_missing hm]
    rw [applyTombstone_missing (by exact hm)]
    exact ⟨rfl, mapSet_set_same _ _ _⟩

/-- C9: An inbound envelope whose parsed conversation identifier differs from
the subscription's conversation is ignored entirely: the state (store, events,
everything) is unchanged, no event is emitted, and no error escapes — even
when the signature is valid. -/
theorem C9_conversation_mismatch_ignored :
    ∀ (s : ClientState) (conversationId : String) (parsed : WireMessage),
      parsed.conversationId ≠ conversationId →
      handleDecodedMessage s conversationId parsed = (s, .ok ()) := by
  intro s conversationId parsed h
  unfold handleDecodedMessage
  rw [if_pos (by simpa using h)]

/-- C10: Deleting an absent message identifier is a silent no-op, and
deleting a present one sets exactly its `deleted` flag, leaving its other
fields, every other stored message, and every other state component
unchanged. -/
theorem C10_deleteMessage_frame :
    ∀ (s : ClientState) (messageId : String),
      (mapGet s.messages messageId = none → deleteMessage s messageId = s) ∧
      (∀ m, mapGet s.messages messageId = some m →
        (deleteMessage s messageId).messages
            = mapSet s.messages messageId { m with deleted := true } ∧
        mapGet (deleteMessage s messageId).messages messageId
            = some { m with deleted := true } ∧
        (∀ k, k ≠ messageId →
          mapGet (deleteMessage s messageId).messages k = mapGet s.messages k) ∧
        (deleteMessage s messageId).pendingTombstones = s.pendingTombstones ∧
        (deleteMessage s messageId).events = s.events ∧
        (deleteMessage s messageId).published = s.published ∧
        (deleteMessage s messageId).conversations = s.conversations ∧
        (deleteMessage s messageId).identity = s.identity) := by
  intro s messageId
  constructor
  · intro h
    unfold deleteMessage
    rw [h]
  · intro m hm
    unfold deleteMessage
    rw [hm]
    refine ⟨rfl, mapGet_set_self _ _ _, fun k hk => mapGet_set_ne _ _ _ _ hk,
      rfl, rfl, rfl, rfl, rfl⟩

/-- A fixed receiving identity used by the concrete scenarios. -/
def idBob : Identity := ⟨"bob", "bsk", edPub "bsk", "bxsk", "bxpk"⟩

/-- Alice as a participant (her signing key is `edPub "ask"`). -/
def partAlice : Participant := ⟨"alice", edPub "ask", "axpk"⟩

/-- Bob as a participant. -/
def partBob : Participant := ⟨"bob", edPub "bsk", "bxpk"⟩

/-- A direct conversation between alice and bob with an empty admin set. -/
def convDirect : ConversationConfig := ⟨"c1", .direct, [partAlice, partBob], none, none⟩

/-- Bob's client state: joined to `convDirect`, with an empty store. -/
def sBob : ClientState := ⟨idBob, [("c1", convDirect)], [], [], [], []⟩

/-- A stored message from alice, used by the delete/revoke scenarios. -/
def msgAlice : ChatMessage := ⟨"m1", "c1", "alice", "hi", 5, false, false⟩

/-- Bob's state with alice's message stored. -/
def sBobMsg : ClientState := ⟨idBob, [("c1", convDirect)], [("m1", msgAlice)], [], [], []⟩

/-- Witness for C10 at concrete inputs: deleting a missing identifier changes
nothing, and deleting a stored one flips only its deleted flag. -/
theorem C10_witness :
    deleteMessage sBobMsg "zzz" = sBobMsg ∧
    mapGet (deleteMessage sBobMsg "m1").messages "m1"
      = some { msgAlice with deleted := true } ∧
    mapGet (deleteMessage sBobMsg "m1").messages "other" = mapGet sBobMsg.messages "other" ∧
    (deleteMessage sBobMsg "m1").events = sBobMsg.events := by
  have h1 := (C10_deleteMessage_frame sBobMsg "zzz").1 (by decide)
  have h2 := (C10_deleteMessage_frame sBobMsg "m1").2 msgAlice (by decide)
  exact ⟨h1, h2.2.1, h2.2.2.1 "other" (by decide), h2.2.2.2.2.1⟩

/-- Witness for C9 at concrete inputs: an envelope for conversation `c2`
delivered to the `c1` subscription leaves the state untouched. -/
theorem C9_witness :
    handleDecodedMessage sBobMsg "c1"
      ⟨1, .chat, "c2", "mX", "alice", edPub "ask", "axpk", 7, none, none, none,
        ⟨edPub "ask", ⟨1, .chat, "c2", "mX", "alice", edPub "ask", "axpk", 7, none, none, none⟩⟩⟩
      = (sBobMsg, .ok ()) :=
  C9_conversation_mismatch_ignored sBobMsg "c1" _ (by decide)

/-- C4: An inbound envelope whose signature does not verify against the
sender's signing public key is rejected silently: the state is unchanged (so
the store is unchanged and no event reaches any listener) and no error
propagates out of the receive handler. -/
theorem C4_invalid_signature_silent :
    ∀ (s : ClientState) (conversationId : String) (parsed : WireMessage),
      verifyWire (signaturePayload parsed) parsed.signature parsed.senderEd25519 = false →
      handleDecodedMessage s conversationId parsed = (s, .ok ()) := by
  intro s conversationId parsed h
  unfold handleDecodedMessage
  by_cases hc : parsed.conversationId != conversationId
  · rw [if_pos hc]
  · rw [if_neg hc, if_pos (by simp [h])]

/-- Witness for C4 at concrete inputs: an envelope carrying a signature under
the wrong key is dropped without any state change or error. -/
theorem C4_witness :
    handleDecodedMessage sBobMsg "c1"
      ⟨1, .chat, "c1", "mX", "alice", edPub "ask", "axpk", 7, none, none, none,
        ⟨edPub "evil", ⟨1, .chat, "c1", "mX", "alice", edPub "ask", "axpk", 7, none, none, none⟩⟩⟩
      = (sBobMsg, .ok ()) :=
  C4_invalid_signature_silent sBobMsg "c1" _ (by decide)

/-- C5: When encryption and signing succeed but the transport reports zero
successful deliveries or times out, `sendMessage` fails with a transport
error while the sent message is already stored and the local message event
was already emitted: the send is not rolled back. -/
theorem C5_send_no_rollback :
    ∀ (s : ClientState) (conversationId plaintext : String) (nonce : Bytes) (now : Nat)
      (tr : TransportResult) (conversation : ConversationConfig) (key : Bytes),
      getConversation s conversationId = .ok conversation →
      deriveConversationKey s conversation = .ok key →
      (tr = .timeout ∨ tr = .delivered 0) →
      ∃ emsg : String,
        (sendMessage s conversationId plaintext nonce now tr).2
            = .error (.transport emsg) ∧
        mapGet (sendMessage s conversationId plaintext nonce now tr).1.messages
            (canonicalId [conversationId, s.identity.id, nonce,
              ctB64 (encryptPayload plaintext key nonce), natRepr now])
          = some { id := canonicalId [conversationId, s.identity.id, nonce,
                     ctB64 (encryptPayload plaintext key nonce), natRepr now],
                   conversationId := conversationId, senderId := s.identity.id,
                   text := plaintext, timestamp := now, revoked := false, deleted := false } ∧
        (conversationId, ChatEvent.message
            { id := canonicalId [conversationId, s.identity.id, nonce,
                ctB64 (encryptPayload plaintext key nonce), natRepr now],
              conversationId := conversationId, senderId := s.identity.id,
              text := plaintext, timestamp := now, revoked := false, deleted := false })
          ∈ (sendMessage s conversationId plaintext nonce now tr).1.events := by
  intro s conversationId plaintext nonce now tr conversation key hconv hkey htr
  simp only [sendMessage, hconv, hkey]
  rcases htr with htr | htr
  · subst htr
    exact ⟨"Timeout", rfl, mapGet_set_self _ _ _,
      List.mem_append.mpr (Or.inr (List.mem_singleton.mpr rfl))⟩
  · subst htr
    exact ⟨"LightPush send failed", rfl, mapGet_set_self _ _ _,
      List.mem_append.mpr (Or.inr (List.mem_singleton.mpr rfl))⟩

/-- Witness for C5 at concrete inputs: a timed-out publish surfaces a
transport error while bob's own message is stored and announced locally. -/
theorem C5_witness :
    ∃ emsg : String,
      (sendMessage sBob "c1" "hello" "n0" 9 .timeout).2 = .error (.transport emsg) ∧
      mapGet (sendMessage sBob "c1" "hello" "n0" 9 .timeout).1.messages
          (canonicalId ["c1", sBob.identity.id, "n0",
            ctB64 (encryptPayload "hello" (deriveDirectKey "c1" "bxsk" "axpk") "n0"), natRepr 9])
        = some { id := canonicalId ["c1", sBob.identity.id, "n0",
                   ctB64 (encryptPayload "hello" (deriveDirectKey "c1" "bxsk" "axpk") "n0"),
                   natRepr 9],
                 conversationId := "c1", senderId := sBob.identity.id, text := "hello",
                 timestamp := 9, revoked := false, deleted := false } ∧
      (("c1", ChatEvent.message
          { id := canonicalId ["c1", sBob.identity.id, "n0",
              ctB64 (encryptPayload "hello" (deriveDirectKey "c1" "bxsk" "axpk") "n0"),
              natRepr 9],
            conversationId := "c1", senderId := sBob.identity.id, text := "hello",
            timestamp := 9, revoked := false, deleted := false })
        ∈ (sendMessage sBob "c1" "hello" "n0" 9 .timeout).1.events) :=
  C5_send_no_rollback sBob "c1" "hello" "n0" 9 .timeout convDirect
    (deriveDirectKey "c1" "bxsk" "axpk") (by rfl) (by rfl) (Or.inl rfl)

/-- C3: `revokeMessage` on a stored target fails with the authorization
error, leaves the whole state unchanged (in particular the target's revoked
flag keeps its value, false for an unrevoked message) and performs no
outbound publish whenever the issuer is neither the original sender nor in
the admin set; and a successful revoke is only possible for the original
sender or an admin. -/
theorem C3_revoke_authorization :
    ∀ (s : ClientState) (conversationId targetMessageId : String) (now : Nat)
      (tr : TransportResult) (conversation : ConversationConfig) (m : ChatMessage),
      getConversation s conversationId = .ok conversation →
      mapGet s.messages targetMessageId = some m →
      ((s.identity.id ≠ m.senderId ∧ s.identity.id ∉ conversation.adminIds.getD []) →
        revokeMessage s conversationId targetMessageId now tr
          = (s, .error (.authorization "Not authorized to revoke"))) ∧
      (∀ u : ClientState,
        revokeMessage s conversationId targetMessageId now tr = (u, .ok ()) →
        s.identity.id = m.senderId ∨ s.identity.id ∈ conversation.adminIds.getD []) := by
  intro s conversationId targetMessageId now tr conversation m hconv hm
  constructor
  · intro hno
    have hcr : canRevoke conversation s.identity.id m.senderId = false := by
      rw [Bool.eq_false_iff]
      intro hc
      rcases (canRevoke_iff conversation s.identity.id m.senderId).mp hc with h | h
      · exact hno.1 h
      · exact hno.2 h
    simp only [revokeMessage, hconv, hm, hcr, Bool.false_eq_true, if_false]
  · intro u hok
    by_cases hcr : canRevoke conversation s.identity.id m.senderId = true
    · exact (canRevoke_iff conversation s.identity.id m.senderId).mp hcr
    · exfalso
      have hcrf : canRevoke conversation s.identity.id m.senderId = false :=
        Bool.eq_false_iff.mpr hcr
      simp only [revokeMessage, hconv, hm, hcrf, Bool.false_eq_true, if_false] at hok
      exact Except.noConfusion (Prod.mk.inj hok).2

/-- An identity for carol, a third party who is neither sender nor admin. -/
def idCarol : Identity := ⟨"carol", "csk", edPub "csk", "cxsk", "cxpk"⟩

/-- Carol's client state with alice's message stored in `convDirect`. -/
def sCarolMsg : ClientState := ⟨idCarol, [("c1", convDirect)], [("m1", msgAlice)], [], [], []⟩

/-- Witness for C3 at concrete inputs: carol (neither sender nor admin)
attempting to revoke alice's message gets the authorization error and the
state — store and publish log included — is unchanged. -/
theorem C3_witness :
    revokeMessage sCarolMsg "c1" "m1" 9 (.delivered 1)
      = (sCarolMsg, .error (.authorization "Not authorized to revoke")) :=
  (C3_revoke_authorization sCarolMsg "c1" "m1" 9 (.delivered 1) convDirect msgAlice
    (by rfl) (by rfl)).1 (by decide)

/-! ## Out-of-order tombstones: concrete scenarios -/

/-- The signable projection of alice's early tombstone for `m1`. -/
def tombBaseAlice : SignablePayload :=
  ⟨1, .tombstone, "c1", "t1", "alice", edPub "ask", "axpk", 5, none, none, some "m1"⟩

/-- Alice's validly signed tombstone for her own not-yet-delivered message
`m1`, delivered to bob before the message itself. -/
def eTombAlice : WireMessage :=
  ⟨1, .tombstone, "c1", "t1", "alice", edPub "ask", "axpk", 5, none, none, some "m1",
    ⟨edPub "ask", tombBaseAlice⟩⟩

/-- The key bob derives for `convDirect` (and under which `m1` decrypts). -/
def keyBobAlice : Bytes := deriveDirectKey "c1" "bxsk" "axpk"

/-- The ciphertext of alice's message `m1`, decryptable under bob's key. -/
def ctAlice : Ciphertext := ⟨keyBobAlice, "n1", "hello"⟩

/-- The signable projection of alice's chat message `m1`. -/
def chatBaseAlice : SignablePayload :=
  ⟨1, .chat, "c1", "m1", "alice", edPub "ask", "axpk", 6, some "n1", some ctAlice, none⟩

/-- Alice's validly signed chat envelope for `m1`, arriving after the
tombstone that targets it. -/
def eChatAlice : WireMessage :=
  ⟨1, .chat, "c1", "m1", "alice", edPub "ask", "axpk", 6, some "n1", some ctAlice, none,
    ⟨edPub "ask", chatBaseAlice⟩⟩

/-- The signable projection of a tombstone whose issuer id is the empty
string (the value the receive path compares against when the target's sender
is unknown). -/
def tombBaseEmpty : SignablePayload :=
  ⟨1, .tombstone, "c1", "t2", "", edPub "esk", "expk", 5, none, none, some "m1"⟩

/-- A validly signed tombstone for `m1` whose sender id is the empty string:
neither the sender of `m1` nor an admin of `convDirect`. -/
def eTombEmpty : WireMessage :=
  ⟨1, .tombstone, "c1", "t2", "", edPub "esk", "expk", 5, none, none, some "m1",
    ⟨edPub "esk", tombBaseEmpty⟩⟩

/-- C1, counterexample: in bob's store the target `m1` is unknown, alice's
own early tombstone for it is delivered first and dropped (alice is not an
admin, and the check runs against the empty string), so when `m1` itself
arrives and is stored it ends with `revoked == false` — refuting the claim
that a tombstone delivered before its target always yields `revoked == true`. -/
theorem C1_counterexample :
    mapGet sBob.messages "m1" = none ∧
    (mapGet (handleDecodedMessage (handleDecodedMessage sBob "c1" eTombAlice).1 "c1"
        eChatAlice).1.messages "m1").map (fun m => m.revoked) = some false := by
  decide

/-- C2, counterexample: with `m1` unknown, alice's tombstone (issuer equal to
the original sender, not an admin) is not buffered as pending but dropped
outright; and a tombstone with the empty issuer id is buffered and later
marks `m1` revoked even though the authorization check against the
now-known sender `alice` fails — refuting both halves of the claim. -/
theorem C2_counterexample :
    (mapGet sBob.messages "m1" = none ∧
     (handleDecodedMessage sBob "c1" eTombAlice).1 = sBob) ∧
    (canRevoke convDirect "" "alice" = false ∧
     (mapGet (handleDecodedMessage (handleDecodedMessage sBob "c1" eTombEmpty).1 "c1"
         eChatAlice).1.messages "m1").map (fun m => m.revoked) = some true ∧
     (mapGet (handleDecodedMessage (handleDecodedMessage sBob "c1" eTombEmpty).1 "c1"
         eChatAlice).1.messages "m1").map (fun m => m.senderId) = some "alice") := by
  decide

/-- The state after buffering a pending tombstone and emitting its event. -/
def pendingState (s : ClientState) (conversationId target issuer : String) (ts : Nat) :
    ClientState :=
  { s with pendingTombstones := mapSet s.pendingTombstones target ⟨target, issuer, ts⟩,
           events := s.events ++ [(conversationId, .tombstone ⟨target, issuer, ts⟩)] }

theorem handle_tombstone_unknown {s : ClientState} {conversationId target : String}
    {parsed : WireMessage} {conversation : ConversationConfig}
    (hcid : parsed.conversationId = conversationId)
    (hsig : verifyWire (signaturePayload parsed) parsed.signature parsed.senderEd25519 = true)
    (htype : parsed.type = .tombstone)
    (htarget : parsed.targetMessageId = some target)
    (hm : mapGet s.messages target = none)
    (hconv : getConversation s conversationId = .ok conversation) :
    handleDecodedMessage s conversationId parsed
      = if canRevoke conversation parsed.senderId "" then
          (pendingState s conversationId target parsed.senderId parsed.timestamp, .ok ())
        else (s, .ok ()) := by
  simp only [handleDecodedMessage, hcid, bne_self_eq_false, Bool.false_eq_true, if_false,
    hsig, Bool.not_true, htype, htarget, hconv, hm, Option.map_none', Option.getD_none]
  by_cases hcr : canRevoke conversation parsed.senderId "" = true
  · rw [if_pos hcr, if_pos hcr,
      applyTombstone_missing (t := ⟨target, parsed.senderId, parsed.timestamp⟩) hm]
    rfl
  · rw [if_neg hcr, if_neg hcr]

theorem handle_chat_pending_revoked {s : ClientState} {conversationId : String}
    {parsed : WireMessage} {conversation : ConversationConfig} {key : Bytes}
    {ct : Ciphertext} {nonce : Bytes} {text : String}
    (hcid : parsed.conversationId = conversationId)
    (hsig : verifyWire (signaturePayload parsed) parsed.signature parsed.senderEd25519 = true)
    (htype : parsed.type = .chat)
    (hct : parsed.ciphertext = some ct)
    (hnonce : parsed.nonce = some nonce)
    (hconv : getConversation s conversationId = .ok conversation)
    (hkey : deriveConversationKey s conversation = .ok key)
    (hdec : decryptPayload ct nonce key = some text)
    (hnew : mapGet s.messages parsed.messageId = none)
    (hpend : (mapGet s.pendingTombstones parsed.messageId).isSome = true) :
    (mapGet (handleDecodedMessage s conversationId parsed).1.messages
        parsed.messageId).map (fun m => m.revoked) = some true := by
  simp only [handleDecodedMessage, hcid, bne_self_eq_false, Bool.false_eq_true, if_false,
    hsig, Bool.not_true, htype, hct, hnonce, hconv, hkey, hdec, hnew, Option.isSome_none,
    if_false, hpend, if_true, emit]
  rw [mapGet_set_self]
  rfl

/-- C2 (amended): an inbound tombstone whose target message (and hence its
original sender) is unknown locally is buffered as pending exactly when the
receive-time authorization check passes with the unknown sender taken as the
empty string — that is, when the issuer is in the conversation's admin set or
the issuer id is itself the empty string; any other such tombstone is dropped
with no state change.  In both cases the messages map is untouched at
receive time. -/
theorem C2_pending_gate_amended :
    ∀ (s : ClientState) (conversationId target : String) (parsed : WireMessage)
      (conversation : ConversationConfig),
      parsed.conversationId = conversationId →
      verifyWire (signaturePayload parsed) parsed.signature parsed.senderEd25519 = true →
      parsed.type = .tombstone →
      parsed.targetMessageId = some target →
      mapGet s.messages target = none →
      getConversation s conversationId = .ok conversation →
      ((canRevoke conversation parsed.senderId "" = true →
          mapGet (handleDecodedMessage s conversationId parsed).1.pendingTombstones target
            = some ⟨target, parsed.senderId, parsed.timestamp⟩ ∧
          (handleDecodedMessage s conversationId parsed).1.messages = s.messages) ∧
       (canRevoke conversation parsed.senderId "" = false →
          handleDecodedMessage s conversationId parsed = (s, .ok ()))) := by
  intro s conversationId target parsed conversation hcid hsig htype htarget hm hconv
  rw [handle_tombstone_unknown hcid hsig htype htarget hm hconv]
  constructor
  · intro hcr
    rw [if_pos hcr]
    exact ⟨mapGet_set_self _ _ _, rfl⟩
  · intro hcr
    rw [if_neg (by simp [hcr])]

/-- A direct conversation in which alice is an admin. -/
def convAdmin : ConversationConfig := ⟨"c1", .direct, [partAlice, partBob], none, some ["alice"]⟩

/-- Bob's empty-store state joined to the admin conversation. -/
def sBobAdmin : ClientState := ⟨idBob, [("c1", convAdmin)], [], [], [], []⟩

/-- Witness for the amended C2 at concrete inputs: the admin alice's early
tombstone for the unknown `m1` is buffered as pending and the messages map
stays empty. -/
theorem C2_witness :
    mapGet (handleDecodedMessage sBobAdmin "c1" eTombAlice).1.pendingTombstones "m1"
      = some ⟨"m1", "alice", 5⟩ ∧
    (handleDecodedMessage sBobAdmin "c1" eTombAlice).1.messages = sBobAdmin.messages :=
  (C2_pending_gate_amended sBobAdmin "c1" "m1" eTombAlice convAdmin rfl (by decide) rfl rfl
    (by decide) (by rfl)).1 (by decide)

/-- C1 (amended): a tombstone delivered before its target message still
produces `revoked == true` once the target is stored, provided the tombstone
passes the receive-time authorization check evaluated with the unknown
sender as the empty string (issuer in the admin set, or issuer id equal to
the empty string); the early tombstone is then buffered, and the target, on
arrival and storage, is marked revoked. -/
theorem C1_early_tombstone_amended :
    ∀ (s : ClientState) (conversationId target : String) (eT eC : WireMessage)
      (conversation : ConversationConfig) (key : Bytes) (ct : Ciphertext)
      (nonce : Bytes) (text : String),
      eT.conversationId = conversationId →
      verifyWire (signaturePayload eT) eT.signature eT.senderEd25519 = true →
      eT.type = .tombstone →
      eT.targetMessageId = some target →
      mapGet s.messages target = none →
      getConversation s conversationId = .ok conversation →
      canRevoke conversation eT.senderId "" = true →
      eC.conversationId = conversationId →
      verifyWire (signaturePayload eC) eC.signature eC.senderEd25519 = true →
      eC.type = .chat →
      eC.messageId = target →
      eC.ciphertext = some ct →
      eC.nonce = some nonce →
      deriveConversationKey s conversation = .ok key →
      decryptPayload ct nonce key = some text →
      (mapGet (handleDecodedMessage (handleDecodedMessage s conversationId eT).1
          conversationId eC).1.messages target).map (fun m => m.revoked) = some true := by
  intro s conversationId target eT eC conversation key ct nonce text
    hcid1 hsig1 htype1 htarget1 hm hconv hcr hcid2 hsig2 htype2 hmid hct hnonce hkey hdec
  have hs1 : (handleDecodedMessage s conversationId eT).1
      = pendingState s conversationId target eT.senderId eT.timestamp := by
    rw [handle_tombstone_unknown hcid1 hsig1 htype1 htarget1 hm hconv, if_pos hcr]
  rw [hs1]
  have hconv2 : getConversation (pendingState s conversationId target eT.senderId eT.timestamp)
      conversationId = .ok conversation := hconv
  have hkey2 : deriveConversationKey
      (pendingState s conversationId target eT.senderId eT.timestamp) conversation
      = .ok key := hkey
  have hnew2 : mapGet (pendingState s conversationId target eT.senderId eT.timestamp).messages
      eC.messageId = none := by
    rw [hmid]
    exact hm
  have hpend2 : (mapGet (pendingState s conversationId target eT.senderId
      eT.timestamp).pendingTombstones eC.messageId).isSome = true := by
    rw [hmid]
    show (mapGet (mapSet s.pendingTombstones target
      ⟨target, eT.senderId, eT.timestamp⟩) target).isSome = true
    rw [mapGet_set_self]
    rfl
  have h := @handle_chat_pending_revoked
    (pendingState s conversationId target eT.senderId eT.timestamp) conversationId eC
    conversation key ct nonce text hcid2 hsig2 htype2 hct hnonce hconv2 hkey2 hdec hnew2 hpend2
  rw [hmid] at h
  exact h

/-- Witness for the amended C1 at concrete inputs: the admin alice's early
tombstone is buffered, and `m1`, stored on arrival, ends revoked. -/
theorem C1_witness :
    (mapGet (handleDecodedMessage (handleDecodedMessage sBobAdmin "c1" eTombAlice).1 "c1"
        eChatAlice).1.messages "m1").map (fun m => m.revoked) = some true :=
  C1_early_tombstone_amended sBobAdmin "c1" "m1" eTombAlice eChatAlice convAdmin
    keyBobAlice ctAlice "n1" "hello" rfl (by decide) rfl rfl (by decide) (by rfl) (by decide)
    rfl (by decide) rfl rfl rfl rfl (by rfl) (by decide)
